import Mathlib

/-!
# Verification of the generic matrix implementation

A shallow embedding of the Rust crate `generic-matrix-impl` (file
`src/lib.rs`, module `matrix_operations`).  The `Matrix<T>` struct is
embedded as a Lean structure; `u32` row/column counts become `Nat`
(none of the verified properties depend on 32-bit wraparound);
`Vec<Vec<T>>` becomes `List (List T)`.  Rust indexing panics when out
of bounds and the arithmetic operators panic on dimension mismatch, so
the fallible operations return `Except MatrixError`; `from_data`
panics exactly when the input is empty, so it returns `Option`.
The trait bounds `Mul + Add + Sub + Default + Clone` become the type
class assumptions `[Add T] [Mul T] [Sub T] [Inhabited T]` (cloning is
implicit in a pure language).
-/

namespace MatrixImpl

/-- Embedding of `struct Matrix<T> { rows, columns, dimension, data }`. -/
structure Matrix (T : Type) where
  rows : Nat
  columns : Nat
  dimension : Nat × Nat
  data : List (List T)
deriving Repr, DecidableEq

/-- The two panic classes of the source: the explicit `panic!` calls on a
dimension mismatch (with their diagnostic message), and the implicit panic
of an out-of-bounds `Vec` index. -/
inductive MatrixError where
  | dimensionMismatch (msg : String)
  | outOfBounds
deriving Repr, DecidableEq

namespace Matrix

variable {T : Type} [Add T] [Mul T] [Sub T] [Inhabited T]

/-- Fallible read `data[i][j]`: Rust `Vec` indexing panics out of bounds. -/
def getCell (data : List (List T)) (i j : Nat) : Except MatrixError T :=
  match data[i]? with
  | none => .error .outOfBounds
  | some row =>
    match row[j]? with
    | none => .error .outOfBounds
    | some x => .ok x

/-- Fallible write `data[i][j] = x`: panics when either index is out of
bounds, otherwise replaces the cell. -/
def setCell (data : List (List T)) (i j : Nat) (x : T) :
    Except MatrixError (List (List T)) :=
  match data[i]? with
  | none => .error .outOfBounds
  | some row =>
    if j < row.length then .ok (data.set i (row.set j x))
    else .error .outOfBounds

/-- Total write used for `diagonal_from_constant`, whose writes are always
in bounds (the target matrix is freshly built with the same dimensions),
so the out-of-bounds case of the source is unreachable there. -/
def set2 (data : List (List T)) (i j : Nat) (x : T) : List (List T) :=
  match data[i]? with
  | some row => data.set i (row.set j x)
  | none => data

/-- `fn data_from_zeroes(r, c)`: `vec![vec![T::default(); c]; r]`. -/
def data_from_zeroes (r c : Nat) : List (List T) :=
  List.replicate r (List.replicate c (default : T))

/-- `fn data_from_constant(r, c, v)`: `vec![vec![v; c]; r]`. -/
def data_from_constant (r c : Nat) (v : T) : List (List T) :=
  List.replicate r (List.replicate c v)

/-- `fn from_data(data)`: rows from the outer length, columns from
`data.get(0).unwrap()` (panic on an empty input, hence `Option`), the
nested vector stored unvalidated. -/
def from_data (d : List (List T)) : Option (Matrix T) :=
  match d[0]? with
  | none => none
  | some row0 =>
    some { rows := d.length, columns := row0.length,
           dimension := (d.length, row0.length), data := d }

/-- `fn from_constant(dimension, constant)`. -/
def from_constant (d : Nat × Nat) (v : T) : Matrix T :=
  { rows := d.1, columns := d.2, dimension := d,
    data := data_from_constant d.1 d.2 v }

/-- `fn default_from_dimension(dimension)`. -/
def default_from_dimension (d : Nat × Nat) : Matrix T :=
  { rows := d.1, columns := d.2, dimension := d,
    data := data_from_zeroes d.1 d.2 }

/-- `fn default_from_rows_and_columns(rows, columns)`. -/
def default_from_rows_and_columns (r c : Nat) : Matrix T :=
  { rows := r, columns := c, dimension := (r, c),
    data := data_from_zeroes r c }

/-- `fn diagonal_from_constant(dimension, constant)`: a default matrix
whose cells `(i, i)` for `i < min(rows, columns)` are overwritten by the
constant, in increasing order of `i`. -/
def diagonal_from_constant (d : Nat × Nat) (v : T) : Matrix T :=
  let m : Matrix T := default_from_dimension d
  let min_dim : Nat := min d.1 d.2
  { m with data := (List.range min_dim).foldl (fun acc i => set2 acc i i v) m.data }

/-- `fn default_diagonal(dimension)`:
`diagonal_from_constant(dimension, T::default())`. -/
def default_diagonal (d : Nat × Nat) : Matrix T :=
  diagonal_from_constant d (default : T)

/-- The `impl Default for Matrix<T>`: a fixed 3×3 zero-filled matrix. -/
instance instInhabitedMatrix : Inhabited (Matrix T) where
  default :=
    { rows := 3, columns := 3, dimension := (3, 3),
      data := data_from_zeroes 3 3 }

/-- `fn transpose(self)`: a fresh `columns × rows` default matrix, then
`transposed.data[j][i] = self.data[i][j]` with `i` over rows (outer loop)
and `j` over columns (inner loop). -/
def transpose (m : Matrix T) : Except MatrixError (Matrix T) := do
  let init : Matrix T := default_from_dimension (m.columns, m.rows)
  let d ← (List.range m.rows).foldlM (fun acc i =>
    (List.range m.columns).foldlM (fun acc j => do
      let x ← getCell m.data i j
      setCell acc j i x) acc) init.data
  pure { init with data := d }

/-- `impl Add for Matrix<T>`: panic on unequal `dimension`, else a fresh
default matrix of that dimension filled by
`resultant.data[i][j] = self.data[i][j] + rhs.data[i][j]`. -/
def add (lhs rhs : Matrix T) : Except MatrixError (Matrix T) :=
  if lhs.dimension ≠ rhs.dimension then
    .error (.dimensionMismatch
      "Matrices must have the same dimension to perform addition")
  else do
    let resultant : Matrix T := default_from_dimension lhs.dimension
    let d ← (List.range lhs.rows).foldlM (fun acc i =>
      (List.range lhs.columns).foldlM (fun acc j => do
        let a ← getCell lhs.data i j
        let b ← getCell rhs.data i j
        setCell acc i j (a + b)) acc) resultant.data
    pure { resultant with data := d }

/-- `impl Sub for Matrix<T>`: same loop structure as addition with `-`
in place of `+` and its own panic message. -/
def sub (lhs rhs : Matrix T) : Except MatrixError (Matrix T) :=
  if lhs.dimension ≠ rhs.dimension then
    .error (.dimensionMismatch
      "Matrices must have the same dimension to perform subtraction")
  else do
    let resultant : Matrix T := default_from_dimension lhs.dimension
    let d ← (List.range lhs.rows).foldlM (fun acc i =>
      (List.range lhs.columns).foldlM (fun acc j => do
        let a ← getCell lhs.data i j
        let b ← getCell rhs.data i j
        setCell acc i j (a - b)) acc) resultant.data
    pure { resultant with data := d }

/-- `impl Mul for Matrix<T>`: panic when `self.columns != rhs.rows`, else
a fresh `self.rows × rhs.columns` default matrix accumulated by
`resultant.data[i][j] = resultant.data[i][j] + self.data[i][k] * rhs.data[k][j]`
with loops `i` over result rows, `j` over result columns, `k` over the
shared dimension, in that nesting order. -/
def mul (lhs rhs : Matrix T) : Except MatrixError (Matrix T) :=
  if lhs.columns ≠ rhs.rows then
    .error (.dimensionMismatch "Incompatible dimensions for matrix multiplication.")
  else do
    let resultant : Matrix T := default_from_rows_and_columns lhs.rows rhs.columns
    let d ← (List.range lhs.rows).foldlM (fun acc i =>
      (List.range rhs.columns).foldlM (fun acc j =>
        (List.range lhs.columns).foldlM (fun acc k => do
          let cur ← getCell acc i j
          let a ← getCell lhs.data i k
          let b ← getCell rhs.data k j
          setCell acc i j (cur + a * b)) acc) acc) resultant.data
    pure { resultant with data := d }

/-- Specification-side cell read, `Option`-valued. -/
def cell (m : Matrix T) (i j : Nat) : Option T :=
  m.data[i]?.bind fun row => row[j]?

/-- Total cell read defaulting out-of-range cells; used only at in-range
indices in the theorems below. -/
def cellD (m : Matrix T) (i j : Nat) : T :=
  (cell m i j).getD (default : T)

/-- The documented representation invariant: the cached `dimension` pair
agrees with `rows`/`columns`, the outer list has `rows` entries, and every
row has `columns` entries. -/
def WF (m : Matrix T) : Prop :=
  m.dimension = (m.rows, m.columns) ∧ m.data.length = m.rows ∧
    ∀ row ∈ m.data, row.length = m.columns

instance (m : Matrix T) : Decidable (WF m) := by
  unfold WF; infer_instance

/-- Rectangular nested-list data of shape `r × c`. -/
def Shape (r c : Nat) (d : List (List T)) : Prop :=
  d.length = r ∧ ∀ row ∈ d, row.length = c

/-- The `r × c` matrix data whose `(i, j)` cell is `f i j`; the normal
form the loop computations are proved equal to. -/
def mkData (r c : Nat) (f : Nat → Nat → T) : List (List T) :=
  (List.range r).map fun i => (List.range c).map fun j => f i j

end Matrix

end MatrixImpl

/-! ## Basic reduction lemmas for the `Except` embedding and list helpers -/

namespace MatrixImpl
namespace Matrix

variable {T : Type} [Add T] [Mul T] [Sub T] [Inhabited T]

lemma ok_bind {α β : Type} (a : α) (f : α → Except MatrixError β) :
    (Except.ok a >>= f) = f a := rfl

lemma error_bind {α β : Type} (e : MatrixError) (f : α → Except MatrixError β) :
    ((Except.error e : Except MatrixError α) >>= f) = .error e := rfl

lemma pure_ok {α : Type} (a : α) : (pure a : Except MatrixError α) = .ok a := rfl

lemma bind_ok_iff {α β : Type} (e : Except MatrixError α)
    (f : α → Except MatrixError β) (b : β) :
    (e >>= f) = .ok b ↔ ∃ a, e = .ok a ∧ f a = .ok b := by
  cases e with
  | error err => simp [error_bind]
  | ok a => simp [ok_bind]

lemma getElem?_append_len {α : Type} (A : List α) (x : α) (B : List α) :
    (A ++ x :: B)[A.length]? = some x := by
  induction A with
  | nil => simp
  | cons a A ih =>
    simp only [List.cons_append, List.length_cons, List.getElem?_cons_succ]
    exact ih

lemma set_append_len {α : Type} (A : List α) (x y : α) (B : List α) :
    (A ++ x :: B).set A.length y = A ++ y :: B := by
  induction A with
  | nil => rfl
  | cons a A ih =>
    simp only [List.cons_append, List.length_cons, List.set_cons_succ]
    rw [ih]

lemma set_append_replicate {α : Type} (A : List α) (z v : α) (m : Nat) :
    (A ++ List.replicate (m + 1) z).set A.length v = A ++ v :: List.replicate m z := by
  rw [List.replicate_succ, set_append_len]

lemma set_self {α : Type} (l : List α) (j : Nat) (x : α) (h : l[j]? = some x) :
    l.set j x = l := by
  induction l generalizing j with
  | nil => simp at h
  | cons a t ih =>
    cases j with
    | zero =>
      simp only [List.getElem?_cons_zero, Option.some.injEq] at h
      rw [← h]
      rfl
    | succ j =>
      simp only [List.getElem?_cons_succ] at h
      simp only [List.set_cons_succ]
      rw [ih j h]

lemma getCell_eq_ok {data : List (List T)} {i j : Nat} {row : List T} {x : T}
    (hrow : data[i]? = some row) (hx : row[j]? = some x) :
    getCell data i j = .ok x := by
  simp [getCell, hrow, hx]

lemma getCell_wf {m : Matrix T} (h : WF m) {i j : Nat}
    (hi : i < m.rows) (hj : j < m.columns) :
    getCell m.data i j = .ok (cellD m i j) := by
  obtain ⟨-, hlen, hrows⟩ := h
  have hi' : i < m.data.length := by rw [hlen]; exact hi
  have hrow : m.data[i]? = some m.data[i] := List.getElem?_eq_getElem hi'
  have hj' : j < m.data[i].length := by
    rw [hrows _ (List.getElem_mem hi')]; exact hj
  have hx : m.data[i][j]? = some m.data[i][j] := List.getElem?_eq_getElem hj'
  have hc : cellD m i j = m.data[i][j] := by
    simp [cellD, cell, hrow, hx]
  rw [hc]
  exact getCell_eq_ok hrow hx

lemma setCell_of_get {data : List (List T)} {i j : Nat} {row : List T} (x : T)
    (hrow : data[i]? = some row) (hj : j < row.length) :
    setCell data i j x = .ok (data.set i (row.set j x)) := by
  simp [setCell, hrow, hj]

lemma setCell_append (A : List (List T)) (P : List T) (q : Nat) (B : List (List T))
    (x : T) (hq : 0 < q) :
    setCell (A ++ (P ++ List.replicate q (default : T)) :: B) A.length P.length x
      = .ok (A ++ ((P ++ [x]) ++ List.replicate (q - 1) (default : T)) :: B) := by
  obtain ⟨q, rfl⟩ : ∃ q', q = q' + 1 := ⟨q - 1, (Nat.succ_pred_eq_of_pos hq).symm⟩
  have hget := getElem?_append_len A (P ++ List.replicate (q + 1) (default : T)) B
  have hlt : P.length < (P ++ List.replicate (q + 1) (default : T)).length := by
    simp [List.length_append, List.length_replicate]
  rw [setCell_of_get x hget hlt, set_append_replicate, set_append_len,
    Nat.add_sub_cancel, List.append_assoc, List.singleton_append]

end Matrix
end MatrixImpl

/-! ## Generic loop lemmas

The arithmetic operators all fill a zero-initialised matrix left to right,
top to bottom.  `rowFill` characterises an inner loop writing the cells of
one row in order; `colFill` characterises an outer loop producing the rows
in order.  Both take the loop body abstractly, constrained by how it acts
on a state whose processed prefix is arbitrary and whose unprocessed
suffix is still zero-filled. -/

namespace MatrixImpl
namespace Matrix

variable {T : Type} [Add T] [Mul T] [Sub T] [Inhabited T]

lemma rowFill (body : List (List T) → Nat → Except MatrixError (List (List T)))
    (v : Nat → T) :
    ∀ (n j₀ q : Nat) (A B : List (List T)) (P : List T),
      P.length = j₀ → n ≤ q →
      (∀ (P' : List T) (q' j : Nat),
          j₀ ≤ j → j < j₀ + n → P'.length = j → 0 < q' →
          body (A ++ (P' ++ List.replicate q' (default : T)) :: B) j
            = .ok (A ++ ((P' ++ [v j]) ++ List.replicate (q' - 1) (default : T)) :: B)) →
      (List.range' j₀ n).foldlM body (A ++ (P ++ List.replicate q (default : T)) :: B)
        = .ok (A ++ ((P ++ (List.range' j₀ n).map v)
            ++ List.replicate (q - n) (default : T)) :: B) := by
  intro n
  induction n with
  | zero =>
    intro j₀ q A B P hP hq hbody
    simp [List.range'_zero, pure_ok]
  | succ n ih =>
    intro j₀ q A B P hP hq hbody
    rw [List.range'_succ, List.foldlM_cons,
      hbody P q j₀ le_rfl (by omega) hP (by omega), ok_bind,
      ih (j₀ + 1) (q - 1) A B (P ++ [v j₀]) (by simp [hP]) (by omega)
        (fun P' q' j h1 h2 h3 h4 => hbody P' q' j (by omega) (by omega) h3 h4)]
    have hq' : q - 1 - n = q - (n + 1) := by omega
    rw [hq', List.map_cons]
    simp only [List.append_assoc, List.singleton_append, List.cons_append, List.nil_append]

lemma colFill (body : List (List T) → Nat → Except MatrixError (List (List T)))
    (rowv : Nat → List T) (c : Nat) :
    ∀ (n i₀ p : Nat) (R : List (List T)),
      R.length = i₀ → n ≤ p →
      (∀ (R' : List (List T)) (p' i : Nat),
          i₀ ≤ i → i < i₀ + n → R'.length = i → 0 < p' →
          body (R' ++ List.replicate p' (List.replicate c (default : T))) i
            = .ok ((R' ++ [rowv i])
                ++ List.replicate (p' - 1) (List.replicate c (default : T)))) →
      (List.range' i₀ n).foldlM body
          (R ++ List.replicate p (List.replicate c (default : T)))
        = .ok ((R ++ (List.range' i₀ n).map rowv)
            ++ List.replicate (p - n) (List.replicate c (default : T))) := by
  intro n
  induction n with
  | zero =>
    intro i₀ p R hR hp hbody
    simp [List.range'_zero, pure_ok]
  | succ n ih =>
    intro i₀ p R hR hp hbody
    rw [List.range'_succ, List.foldlM_cons,
      hbody R p i₀ le_rfl (by omega) hR (by omega), ok_bind,
      ih (i₀ + 1) (p - 1) (R ++ [rowv i₀]) (by simp [hR]) (by omega)
        (fun R' p' i h1 h2 h3 h4 => hbody R' p' i (by omega) (by omega) h3 h4)]
    have hp' : p - 1 - n = p - (n + 1) := by omega
    rw [hp', List.map_cons]
    simp only [List.append_assoc, List.singleton_append, List.cons_append, List.nil_append]

end Matrix
end MatrixImpl

/-! ## Loop lemmas for multiplication and transpose -/

namespace MatrixImpl
namespace Matrix

variable {T : Type} [Add T] [Mul T] [Sub T] [Inhabited T]

lemma setCell_append' (A : List (List T)) (P : List T) (q : Nat) (B : List (List T))
    (x : T) (i j : Nat) (hi : A.length = i) (hj : P.length = j) (hq : 0 < q) :
    setCell (A ++ (P ++ List.replicate q (default : T)) :: B) i j x
      = .ok (A ++ ((P ++ [x]) ++ List.replicate (q - 1) (default : T)) :: B) := by
  subst hi; subst hj; exact setCell_append A P q B x hq

/-- The innermost loop of `mul`: with `i`, `j` fixed it repeatedly reads
cell `(i, j)`, adds `lhs(i,k) * rhs(k,j)` and writes the sum back, so it
folds the products onto the cell's starting value. -/
lemma mulKLoop (ldata rdata : List (List T)) (i j : Nat) (f g : Nat → T) :
    ∀ (n k₀ : Nat) (acc : List (List T)) (row : List T) (x : T),
      acc[i]? = some row → row[j]? = some x →
      (∀ k, k₀ ≤ k → k < k₀ + n → getCell ldata i k = .ok (f k)) →
      (∀ k, k₀ ≤ k → k < k₀ + n → getCell rdata k j = .ok (g k)) →
      (List.range' k₀ n).foldlM (fun acc k => do
          let cur ← getCell acc i j
          let a ← getCell ldata i k
          let b ← getCell rdata k j
          setCell acc i j (cur + a * b)) acc
        = .ok (acc.set i (row.set j
            ((List.range' k₀ n).foldl (fun s k => s + f k * g k) x))) := by
  intro n
  induction n with
  | zero =>
    intro k₀ acc row x hrow hx hf hg
    rw [List.range'_zero, List.foldlM_nil, List.foldl_nil,
      set_self row j x hx, set_self acc i row hrow, pure_ok]
  | succ n ih =>
    intro k₀ acc row x hrow hx hf hg
    obtain ⟨hjl, -⟩ := List.getElem?_eq_some.mp hx
    obtain ⟨hil, -⟩ := List.getElem?_eq_some.mp hrow
    rw [List.range'_succ]
    simp only [List.foldlM_cons]
    rw [getCell_eq_ok hrow hx, ok_bind,
      hf k₀ le_rfl (by omega), ok_bind,
      hg k₀ le_rfl (by omega), ok_bind,
      setCell_of_get _ hrow hjl, ok_bind,
      ih (k₀ + 1) (acc.set i (row.set j (x + f k₀ * g k₀)))
        (row.set j (x + f k₀ * g k₀)) (x + f k₀ * g k₀)
        (List.getElem?_set_self hil) (List.getElem?_set_self hjl)
        (fun k h1 h2 => hf k (by omega) (by omega))
        (fun k h1 h2 => hg k (by omega) (by omega)),
      List.set_set, List.set_set, List.foldl_cons]

/-- The inner loop of `transpose` at source row `i`: iteration `j` writes
the value of source cell `(i, j)` at position `i` of result row `j`, so the
whole loop appends one column to every result row. -/
lemma transposeInner (mdata : List (List T)) (i s : Nat) (w : Nat → T)
    (p : Nat → List T) :
    ∀ (n j₀ : Nat) (A : List (List T)),
      A.length = j₀ →
      (∀ j, j₀ ≤ j → j < j₀ + n → getCell mdata i j = .ok (w j)) →
      (∀ j, j₀ ≤ j → j < j₀ + n → (p j).length = i) →
      (List.range' j₀ n).foldlM (fun acc j => do
          let x ← getCell mdata i j
          setCell acc j i x)
        (A ++ (List.range' j₀ n).map (fun j => p j ++ List.replicate (s + 1) (default : T)))
        = .ok (A ++ (List.range' j₀ n).map
            (fun j => (p j ++ [w j]) ++ List.replicate s (default : T))) := by
  intro n
  induction n with
  | zero =>
    intro j₀ A hA hw hp
    simp [List.range'_zero, pure_ok]
  | succ n ih =>
    intro j₀ A hA hw hp
    rw [List.range'_succ, List.map_cons, List.map_cons]
    simp only [List.foldlM_cons]
    rw [hw j₀ le_rfl (by omega), ok_bind,
      setCell_append' A (p j₀) (s + 1) _ (w j₀) j₀ i hA (hp j₀ le_rfl (by omega))
        (Nat.succ_pos s), ok_bind, Nat.add_sub_cancel, List.append_cons A,
      ih (j₀ + 1) (A ++ [(p j₀ ++ [w j₀]) ++ List.replicate s (default : T)])
        (by simp [hA])
        (fun j h1 h2 => hw j (by omega) (by omega))
        (fun j h1 h2 => hp j (by omega) (by omega)),
      ← List.append_cons]

/-- The outer loop of `transpose`: after processing source rows `0..n`,
result row `j` holds column `j` of the first `n` source rows followed by
zero padding. -/
lemma transposeOuter (m : Matrix T) (hm : WF m) :
    ∀ n, n ≤ m.rows →
      (List.range n).foldlM (fun acc i =>
        (List.range m.columns).foldlM (fun acc j => do
          let x ← getCell m.data i j
          setCell acc j i x) acc)
        (data_from_zeroes m.columns m.rows)
        = .ok ((List.range m.columns).map (fun j =>
            (List.range n).map (fun i => cellD m i j)
              ++ List.replicate (m.rows - n) (default : T))) := by
  intro n
  induction n with
  | zero =>
    intro h
    rw [List.range_zero, List.foldlM_nil, pure_ok]
    congr 1
    simp [data_from_zeroes, List.map_const']
  | succ n ih =>
    intro h
    rw [List.range_succ, List.foldlM_append, ih (by omega), ok_bind]
    simp only [List.foldlM_cons, List.foldlM_nil, bind_pure]
    have hs : m.rows - n = (m.rows - n - 1) + 1 := by omega
    have hI := transposeInner (T := T) m.data n (m.rows - n - 1)
      (fun j => cellD m n j) (fun j => (List.range n).map (fun i => cellD m i j))
      m.columns 0 [] rfl
      (fun j h1 h2 => getCell_wf hm (by omega) (by omega))
      (fun j h1 h2 => by simp)
    rw [List.nil_append, ← List.range_eq_range', ← hs] at hI
    rw [hI]
    congr 1
    apply List.map_congr_left
    intro j hj
    have hr : m.rows - n - 1 = m.rows - (n + 1) := by omega
    simp [List.map_append, hr]

end Matrix
end MatrixImpl

/-! ## Closed forms of the four operations on well-formed inputs -/

namespace MatrixImpl
namespace Matrix

variable {T : Type} [Add T] [Mul T] [Sub T] [Inhabited T]

lemma mkData_getElem? (r c : Nat) (f : Nat → Nat → T) {i : Nat} (hi : i < r) :
    (mkData r c f)[i]? = some ((List.range c).map fun j => f i j) := by
  simp [mkData, List.getElem?_map, List.getElem?_range hi]

lemma cell_mk_mkData {r c : Nat} {f : Nat → Nat → T} {rw cl : Nat} {dm : Nat × Nat}
    {i j : Nat} (hi : i < r) (hj : j < c) :
    cell { rows := rw, columns := cl, dimension := dm, data := mkData r c f } i j
      = some (f i j) := by
  simp [cell, mkData_getElem? r c f hi, List.getElem?_range hj]

lemma WF_mk_mkData (r c : Nat) (f : Nat → Nat → T) :
    WF { rows := r, columns := c, dimension := (r, c), data := mkData r c f } := by
  refine ⟨rfl, by simp [mkData], ?_⟩
  intro row hrow
  simp only [mkData] at hrow
  obtain ⟨i, hi, rfl⟩ := List.mem_map.mp hrow
  simp

lemma transpose_wf_eq (m : Matrix T) (hm : WF m) :
    transpose m = .ok { rows := m.columns, columns := m.rows,
                        dimension := (m.columns, m.rows),
                        data := mkData m.columns m.rows fun j i => cellD m i j } := by
  have h := transposeOuter m hm m.rows le_rfl
  simp only [transpose, default_from_dimension]
  rw [h]
  simp [mkData, Nat.sub_self, ok_bind, pure_ok]

lemma add_wf_eq (lhs rhs : Matrix T) (hl : WF lhs) (hr : WF rhs)
    (hd : lhs.dimension = rhs.dimension) :
    add lhs rhs = .ok { rows := lhs.rows, columns := lhs.columns,
                        dimension := (lhs.rows, lhs.columns),
                        data := mkData lhs.rows lhs.columns
                          fun i j => cellD lhs i j + cellD rhs i j } := by
  have hpair : (lhs.rows, lhs.columns) = (rhs.rows, rhs.columns) := by
    rw [← hl.1, ← hr.1, hd]
  have hrows : rhs.rows = lhs.rows := by injection hpair with h1 h2; exact h1.symm
  have hcols : rhs.columns = lhs.columns := by injection hpair with h1 h2; exact h2.symm
  have hstep : ∀ (R' : List (List T)) (p' i : Nat),
      0 ≤ i → i < 0 + lhs.rows → R'.length = i → 0 < p' →
      (List.range lhs.columns).foldlM (fun acc j => do
          let a ← getCell lhs.data i j
          let b ← getCell rhs.data i j
          setCell acc i j (a + b))
        (R' ++ List.replicate p' (List.replicate lhs.columns (default : T)))
        = .ok ((R' ++ [(List.range lhs.columns).map
              fun j => cellD lhs i j + cellD rhs i j])
            ++ List.replicate (p' - 1) (List.replicate lhs.columns (default : T))) := by
    intro R' p' i h0 hi hR hp
    obtain ⟨p'', rfl⟩ : ∃ p'', p' = p'' + 1 :=
      ⟨p' - 1, (Nat.succ_pred_eq_of_pos hp).symm⟩
    rw [List.replicate_succ, List.range_eq_range']
    have hrow := rowFill (T := T) (fun acc j => do
        let a ← getCell lhs.data i j
        let b ← getCell rhs.data i j
        setCell acc i j (a + b))
      (fun j => cellD lhs i j + cellD rhs i j)
      lhs.columns 0 lhs.columns R'
      (List.replicate p'' (List.replicate lhs.columns (default : T))) [] rfl le_rfl
      (by
        intro P' q' j hj0 hjc hP' hq'
        beta_reduce
        rw [getCell_wf hl (by omega) (by omega),
          getCell_wf hr (by rw [hrows]; omega) (by rw [hcols]; omega)]
        simp only [ok_bind]
        exact setCell_append' R' P' q' _ _ i j hR hP' hq')
    simp only [List.nil_append, Nat.sub_self, List.replicate_zero,
      List.append_nil] at hrow
    rw [hrow, Nat.add_sub_cancel, List.append_cons]
  unfold add
  rw [if_neg (not_not_intro hd)]
  simp only [default_from_dimension, hl.1]
  rw [List.range_eq_range' lhs.rows]
  rw [show (data_from_zeroes lhs.rows lhs.columns : List (List T))
      = [] ++ List.replicate lhs.rows (List.replicate lhs.columns (default : T)) from rfl]
  rw [colFill (T := T) _ _ lhs.columns lhs.rows 0 lhs.rows [] rfl le_rfl hstep]
  simp [mkData, Nat.sub_self, ok_bind, pure_ok, ← List.range_eq_range']

lemma sub_wf_eq (lhs rhs : Matrix T) (hl : WF lhs) (hr : WF rhs)
    (hd : lhs.dimension = rhs.dimension) :
    sub lhs rhs = .ok { rows := lhs.rows, columns := lhs.columns,
                        dimension := (lhs.rows, lhs.columns),
                        data := mkData lhs.rows lhs.columns
                          fun i j => cellD lhs i j - cellD rhs i j } := by
  have hpair : (lhs.rows, lhs.columns) = (rhs.rows, rhs.columns) := by
    rw [← hl.1, ← hr.1, hd]
  have hrows : rhs.rows = lhs.rows := by injection hpair with h1 h2; exact h1.symm
  have hcols : rhs.columns = lhs.columns := by injection hpair with h1 h2; exact h2.symm
  have hstep : ∀ (R' : List (List T)) (p' i : Nat),
      0 ≤ i → i < 0 + lhs.rows → R'.length = i → 0 < p' →
      (List.range lhs.columns).foldlM (fun acc j => do
          let a ← getCell lhs.data i j
          let b ← getCell rhs.data i j
          setCell acc i j (a - b))
        (R' ++ List.replicate p' (List.replicate lhs.columns (default : T)))
        = .ok ((R' ++ [(List.range lhs.columns).map
              fun j => cellD lhs i j - cellD rhs i j])
            ++ List.replicate (p' - 1) (List.replicate lhs.columns (default : T))) := by
    intro R' p' i h0 hi hR hp
    obtain ⟨p'', rfl⟩ : ∃ p'', p' = p'' + 1 :=
      ⟨p' - 1, (Nat.succ_pred_eq_of_pos hp).symm⟩
    rw [List.replicate_succ, List.range_eq_range']
    have hrow := rowFill (T := T) (fun acc j => do
        let a ← getCell lhs.data i j
        let b ← getCell rhs.data i j
        setCell acc i j (a - b))
      (fun j => cellD lhs i j - cellD rhs i j)
      lhs.columns 0 lhs.columns R'
      (List.replicate p'' (List.replicate lhs.columns (default : T))) [] rfl le_rfl
      (by
        intro P' q' j hj0 hjc hP' hq'
        beta_reduce
        rw [getCell_wf hl (by omega) (by omega),
          getCell_wf hr (by rw [hrows]; omega) (by rw [hcols]; omega)]
        simp only [ok_bind]
        exact setCell_append' R' P' q' _ _ i j hR hP' hq')
    simp only [List.nil_append, Nat.sub_self, List.replicate_zero,
      List.append_nil] at hrow
    rw [hrow, Nat.add_sub_cancel, List.append_cons]
  unfold sub
  rw [if_neg (not_not_intro hd)]
  simp only [default_from_dimension, hl.1]
  rw [List.range_eq_range' lhs.rows]
  rw [show (data_from_zeroes lhs.rows lhs.columns : List (List T))
      = [] ++ List.replicate lhs.rows (List.replicate lhs.columns (default : T)) from rfl]
  rw [colFill (T := T) _ _ lhs.columns lhs.rows 0 lhs.rows [] rfl le_rfl hstep]
  simp [mkData, Nat.sub_self, ok_bind, pure_ok, ← List.range_eq_range']

end Matrix
end MatrixImpl

namespace MatrixImpl
namespace Matrix

variable {T : Type} [Add T] [Mul T] [Sub T] [Inhabited T]

lemma mul_wf_eq (lhs rhs : Matrix T) (hl : WF lhs) (hr : WF rhs)
    (h : lhs.columns = rhs.rows) :
    mul lhs rhs = .ok { rows := lhs.rows, columns := rhs.columns,
                        dimension := (lhs.rows, rhs.columns),
                        data := mkData lhs.rows rhs.columns
                          fun i j => (List.range lhs.columns).foldl
                            (fun s k => s + cellD lhs i k * cellD rhs k j)
                            (default : T) } := by
  have hstep : ∀ (R' : List (List T)) (p' i : Nat),
      0 ≤ i → i < 0 + lhs.rows → R'.length = i → 0 < p' →
      (List.range rhs.columns).foldlM (fun acc j =>
          (List.range lhs.columns).foldlM (fun acc k => do
            let cur ← getCell acc i j
            let a ← getCell lhs.data i k
            let b ← getCell rhs.data k j
            setCell acc i j (cur + a * b)) acc)
        (R' ++ List.replicate p' (List.replicate rhs.columns (default : T)))
        = .ok ((R' ++ [(List.range rhs.columns).map fun j =>
              (List.range lhs.columns).foldl
                (fun s k => s + cellD lhs i k * cellD rhs k j) (default : T)])
            ++ List.replicate (p' - 1)
                (List.replicate rhs.columns (default : T))) := by
    intro R' p' i h0 hi hR hp
    subst hR
    obtain ⟨p'', rfl⟩ : ∃ p'', p' = p'' + 1 :=
      ⟨p' - 1, (Nat.succ_pred_eq_of_pos hp).symm⟩
    rw [List.replicate_succ, List.range_eq_range' rhs.columns]
    have hrow := rowFill (T := T) (fun acc j =>
        (List.range lhs.columns).foldlM (fun acc k => do
          let cur ← getCell acc R'.length j
          let a ← getCell lhs.data R'.length k
          let b ← getCell rhs.data k j
          setCell acc R'.length j (cur + a * b)) acc)
      (fun j => (List.range lhs.columns).foldl
        (fun s k => s + cellD lhs R'.length k * cellD rhs k j) (default : T))
      rhs.columns 0 rhs.columns R'
      (List.replicate p'' (List.replicate rhs.columns (default : T))) [] rfl le_rfl
      (by
        intro P' q' j hj0 hjc hP' hq'
        subst hP'
        beta_reduce
        obtain ⟨q'', rfl⟩ : ∃ q'', q' = q'' + 1 :=
          ⟨q' - 1, (Nat.succ_pred_eq_of_pos hq').symm⟩
        have hst : (R' ++ (P' ++ List.replicate (q'' + 1) (default : T))
              :: List.replicate p'' (List.replicate rhs.columns (default : T)))[R'.length]?
            = some (P' ++ List.replicate (q'' + 1) (default : T)) :=
          getElem?_append_len _ _ _
        have hcell : (P' ++ List.replicate (q'' + 1) (default : T))[P'.length]?
            = some (default : T) := by
          rw [List.getElem?_append_right le_rfl]
          simp
        rw [List.range_eq_range' lhs.columns,
          mulKLoop lhs.data rhs.data R'.length P'.length
            (fun k => cellD lhs R'.length k) (fun k => cellD rhs k P'.length)
            lhs.columns 0 _ _ _ hst hcell
            (fun k h1 h2 => getCell_wf hl (by omega) (by omega))
            (fun k h1 h2 => getCell_wf hr (by rw [← h]; omega) (by omega)),
          set_append_len, set_append_replicate, Nat.add_sub_cancel]
        simp only [List.append_assoc, List.singleton_append])
    simp only [List.nil_append, Nat.sub_self, List.replicate_zero,
      List.append_nil] at hrow
    rw [hrow, Nat.add_sub_cancel, List.append_cons]
  unfold mul
  rw [if_neg (not_not_intro h)]
  simp only [default_from_rows_and_columns]
  rw [List.range_eq_range' lhs.rows]
  rw [show (data_from_zeroes lhs.rows rhs.columns : List (List T))
      = [] ++ List.replicate lhs.rows (List.replicate rhs.columns (default : T)) from rfl]
  rw [colFill (T := T) _ _ rhs.columns lhs.rows 0 lhs.rows [] rfl le_rfl hstep]
  simp [mkData, Nat.sub_self, ok_bind, pure_ok, ← List.range_eq_range']

end Matrix
end MatrixImpl

/-! ## Shape preservation: whenever an operation returns a matrix at all,
that matrix is well-formed, regardless of the operands' own shape. -/

namespace MatrixImpl
namespace Matrix

variable {T : Type} [Add T] [Mul T] [Sub T] [Inhabited T]

lemma bind_ok_elim {α β : Type} {e : Except MatrixError α}
    {f : α → Except MatrixError β} {b : β}
    (h : (e >>= f) = .ok b) : ∃ a, e = .ok a ∧ f a = .ok b :=
  (bind_ok_iff e f b).mp h

lemma setCell_ok_elim {data out : List (List T)} {i j : Nat} {x : T}
    (h : setCell data i j x = .ok out) :
    ∃ row, data[i]? = some row ∧ j < row.length
      ∧ out = data.set i (row.set j x) := by
  unfold setCell at h
  cases hrow : data[i]? with
  | none => simp [hrow] at h
  | some row =>
    simp only [hrow] at h
    by_cases hj : j < row.length
    · simp only [if_pos hj] at h
      exact ⟨row, rfl, hj, by injection h with h; exact h.symm⟩
    · simp [if_neg hj] at h

lemma set_shape {r c : Nat} {data : List (List T)} {i j : Nat} {x : T} {row : List T}
    (hrow : data[i]? = some row) (hs : Shape r c data) :
    Shape r c (data.set i (row.set j x)) := by
  obtain ⟨hlen, hrows⟩ := hs
  refine ⟨by rw [List.length_set]; exact hlen, ?_⟩
  intro row' hmem
  rcases List.mem_or_eq_of_mem_set hmem with hmem' | rfl
  · exact hrows _ hmem'
  · rw [List.length_set]; exact hrows _ (List.getElem?_mem hrow)

lemma foldlM_ok_induct {β : Type} (Q : List (List T) → Prop)
    (body : List (List T) → β → Except MatrixError (List (List T)))
    (hbody : ∀ acc x acc', body acc x = .ok acc' → Q acc → Q acc') :
    ∀ (l : List β) (acc acc' : List (List T)),
      l.foldlM body acc = .ok acc' → Q acc → Q acc' := by
  intro l
  induction l with
  | nil =>
    intro acc acc' hfold hq
    rw [List.foldlM_nil, pure_ok] at hfold
    injection hfold with h
    subst h
    exact hq
  | cons a l ih =>
    intro acc acc' hfold hq
    rw [List.foldlM_cons] at hfold
    cases hb : body acc a with
    | error e => rw [hb, error_bind] at hfold; simp at hfold
    | ok mid =>
      rw [hb, ok_bind] at hfold
      exact ih mid acc' hfold (hbody acc a mid hb hq)

lemma shape_data_from_zeroes (r c : Nat) :
    Shape r c (data_from_zeroes r c : List (List T)) := by
  refine ⟨by simp [data_from_zeroes], ?_⟩
  intro row hmem
  rw [List.eq_of_mem_replicate hmem]
  simp

lemma add_ok_wf {lhs rhs m : Matrix T} (hok : add lhs rhs = .ok m) : WF m := by
  unfold add at hok
  by_cases hd : lhs.dimension ≠ rhs.dimension
  · rw [if_pos hd] at hok; simp at hok
  · rw [if_neg hd] at hok
    simp only [default_from_dimension] at hok
    obtain ⟨dta, hfold, hm⟩ := bind_ok_elim hok
    rw [pure_ok] at hm
    injection hm with hm
    subst hm
    have hs : Shape lhs.dimension.1 lhs.dimension.2 dta := by
      refine foldlM_ok_induct _ _ ?_ _ _ _ hfold (shape_data_from_zeroes _ _)
      intro acc i acc' hb hq
      refine foldlM_ok_induct _ _ ?_ _ _ _ hb hq
      intro acc2 j acc2' hb2 hq2
      obtain ⟨a, -, hb2⟩ := bind_ok_elim hb2
      obtain ⟨b, -, hb2⟩ := bind_ok_elim hb2
      obtain ⟨row, hrow, -, rfl⟩ := setCell_ok_elim hb2
      exact set_shape hrow hq2
    exact ⟨Prod.mk.eta.symm, hs.1, hs.2⟩

lemma sub_ok_wf {lhs rhs m : Matrix T} (hok : sub lhs rhs = .ok m) : WF m := by
  unfold sub at hok
  by_cases hd : lhs.dimension ≠ rhs.dimension
  · rw [if_pos hd] at hok; simp at hok
  · rw [if_neg hd] at hok
    simp only [default_from_dimension] at hok
    obtain ⟨dta, hfold, hm⟩ := bind_ok_elim hok
    rw [pure_ok] at hm
    injection hm with hm
    subst hm
    have hs : Shape lhs.dimension.1 lhs.dimension.2 dta := by
      refine foldlM_ok_induct _ _ ?_ _ _ _ hfold (shape_data_from_zeroes _ _)
      intro acc i acc' hb hq
      refine foldlM_ok_induct _ _ ?_ _ _ _ hb hq
      intro acc2 j acc2' hb2 hq2
      obtain ⟨a, -, hb2⟩ := bind_ok_elim hb2
      obtain ⟨b, -, hb2⟩ := bind_ok_elim hb2
      obtain ⟨row, hrow, -, rfl⟩ := setCell_ok_elim hb2
      exact set_shape hrow hq2
    exact ⟨Prod.mk.eta.symm, hs.1, hs.2⟩

lemma mul_ok_wf {lhs rhs m : Matrix T} (hok : mul lhs rhs = .ok m) : WF m := by
  unfold mul at hok
  by_cases hd : lhs.columns ≠ rhs.rows
  · rw [if_pos hd] at hok; simp at hok
  · rw [if_neg hd] at hok
    simp only [default_from_rows_and_columns] at hok
    obtain ⟨dta, hfold, hm⟩ := bind_ok_elim hok
    rw [pure_ok] at hm
    injection hm with hm
    subst hm
    have hs : Shape lhs.rows rhs.columns dta := by
      refine foldlM_ok_induct _ _ ?_ _ _ _ hfold (shape_data_from_zeroes _ _)
      intro acc i acc' hb hq
      refine foldlM_ok_induct _ _ ?_ _ _ _ hb hq
      intro acc2 j acc2' hb2 hq2
      refine foldlM_ok_induct _ _ ?_ _ _ _ hb2 hq2
      intro acc3 k acc3' hb3 hq3
      obtain ⟨cur, -, hb3⟩ := bind_ok_elim hb3
      obtain ⟨a, -, hb3⟩ := bind_ok_elim hb3
      obtain ⟨b, -, hb3⟩ := bind_ok_elim hb3
      obtain ⟨row, hrow, -, rfl⟩ := setCell_ok_elim hb3
      exact set_shape hrow hq3
    exact ⟨rfl, hs.1, hs.2⟩

lemma transpose_ok_wf {x m : Matrix T} (hok : transpose x = .ok m) : WF m := by
  unfold transpose at hok
  simp only [default_from_dimension] at hok
  obtain ⟨dta, hfold, hm⟩ := bind_ok_elim hok
  rw [pure_ok] at hm
  injection hm with hm
  subst hm
  have hs : Shape x.columns x.rows dta := by
    refine foldlM_ok_induct _ _ ?_ _ _ _ hfold (shape_data_from_zeroes _ _)
    intro acc i acc' hb hq
    refine foldlM_ok_induct _ _ ?_ _ _ _ hb hq
    intro acc2 j acc2' hb2 hq2
    obtain ⟨v, -, hb2⟩ := bind_ok_elim hb2
    obtain ⟨row, hrow, -, rfl⟩ := setCell_ok_elim hb2
    exact set_shape hrow hq2
  exact ⟨rfl, hs.1, hs.2⟩

end Matrix
end MatrixImpl

/-! ## Constructors: diagonal fill, `from_data`, and well-formedness -/

namespace MatrixImpl
namespace Matrix

variable {T : Type} [Add T] [Mul T] [Sub T] [Inhabited T]

lemma diag_fold_eq (r c : Nat) (v : T) :
    ∀ n, n ≤ min r c →
      (List.range n).foldl (fun acc i => set2 acc i i v)
        (List.replicate r (List.replicate c (default : T)))
        = (List.range n).map (fun i => (List.replicate c (default : T)).set i v)
          ++ List.replicate (r - n) (List.replicate c (default : T)) := by
  intro n
  induction n with
  | zero => intro h; simp
  | succ n ih =>
    intro h
    have hminr : min r c ≤ r := Nat.min_le_left r c
    have hn : n < r := by omega
    rw [List.range_succ, List.foldl_append, ih (by omega), List.foldl_cons,
      List.foldl_nil]
    have hpre : ((List.range n).map
        (fun i => (List.replicate c (default : T)).set i v)).length = n := by
      simp
    have hsn : ((List.range n).map (fun i => (List.replicate c (default : T)).set i v)
          ++ List.replicate (r - n) (List.replicate c (default : T)))[n]?
        = some (List.replicate c (default : T)) := by
      rw [List.getElem?_append_right (by rw [hpre])]
      rw [hpre, Nat.sub_self]
      simp [List.getElem?_replicate, Nat.sub_pos_of_lt hn]
    simp only [set2, hsn]
    obtain ⟨s, hrs⟩ : ∃ s, r - n = s + 1 :=
      ⟨r - n - 1, by omega⟩
    rw [hrs, List.replicate_succ]
    have hset := set_append_len
      ((List.range n).map (fun i => (List.replicate c (default : T)).set i v))
      (List.replicate c (default : T))
      ((List.replicate c (default : T)).set n v)
      (List.replicate s (List.replicate c (default : T)))
    rw [hpre] at hset
    rw [hset]
    simp only [List.map_append, List.map_cons, List.map_nil]
    rw [List.append_cons, show r - (n + 1) = s from by omega]

lemma diagonal_data (d : Nat × Nat) (v : T) :
    (diagonal_from_constant d v).data
      = (List.range (min d.1 d.2)).map
          (fun i => (List.replicate d.2 (default : T)).set i v)
        ++ List.replicate (d.1 - min d.1 d.2)
            (List.replicate d.2 (default : T)) := by
  simp only [diagonal_from_constant, default_from_dimension, data_from_zeroes]
  exact diag_fold_eq d.1 d.2 v (min d.1 d.2) le_rfl

lemma diagonal_fields (d : Nat × Nat) (v : T) :
    (diagonal_from_constant d v).rows = d.1
      ∧ (diagonal_from_constant d v).columns = d.2
      ∧ (diagonal_from_constant d v).dimension = d :=
  ⟨rfl, rfl, rfl⟩

lemma diagonal_cell_diag (d : Nat × Nat) (v : T) {i : Nat} (hi : i < min d.1 d.2) :
    cell (diagonal_from_constant d v) i i = some v := by
  have hic : i < d.2 := lt_of_lt_of_le hi (Nat.min_le_right d.1 d.2)
  rw [cell, diagonal_data]
  rw [List.getElem?_append_left (by simp [hi])]
  rw [List.getElem?_map, List.getElem?_range hi]
  simp [List.getElem?_set_self (by simp [hic] :
    i < (List.replicate d.2 (default : T)).length)]

lemma diagonal_cell_off (d : Nat × Nat) (v : T) {i j : Nat}
    (hi : i < d.1) (hj : j < d.2) (hne : i ≠ j) :
    cell (diagonal_from_constant d v) i j = some (default : T) := by
  rw [cell, diagonal_data]
  by_cases him : i < min d.1 d.2
  · rw [List.getElem?_append_left (by simp [him])]
    rw [List.getElem?_map, List.getElem?_range him]
    simp [List.getElem?_set_ne hne, List.getElem?_replicate, hj]
  · have h1 : min d.1 d.2 ≤ i := Nat.le_of_not_lt him
    rw [List.getElem?_append_right (by simp [h1])]
    have hlt : i - min d.1 d.2 < d.1 - min d.1 d.2 := Nat.sub_lt_sub_right h1 hi
    simp [List.getElem?_replicate, hlt, hj]

lemma set_replicate_self (c : Nat) (z : T) :
    ∀ i, (List.replicate c z).set i z = List.replicate c z := by
  induction c with
  | zero => intro i; rfl
  | succ c ih =>
    intro i
    cases i with
    | zero => rfl
    | succ i =>
      rw [List.replicate_succ, List.set_cons_succ, ih i]

lemma diagonal_WF (d : Nat × Nat) (v : T) : WF (diagonal_from_constant d v) := by
  refine ⟨Prod.mk.eta.symm, ?_, ?_⟩
  · rw [show (diagonal_from_constant d v).rows = d.1 from rfl, diagonal_data]
    have : min d.1 d.2 ≤ d.1 := Nat.min_le_left d.1 d.2
    simp only [List.length_append, List.length_map, List.length_range,
      List.length_replicate]
    omega
  · show ∀ row ∈ (diagonal_from_constant d v).data, row.length = d.2
    intro row hmem
    rw [diagonal_data] at hmem
    rcases List.mem_append.mp hmem with hm | hm
    · obtain ⟨i, hi, rfl⟩ := List.mem_map.mp hm
      simp
    · rw [List.eq_of_mem_replicate hm]
      simp

lemma default_diagonal_eq_zero (d : Nat × Nat) :
    (default_diagonal d : Matrix T) = default_from_dimension d := by
  have hdata : (default_diagonal d : Matrix T).data
      = List.replicate d.1 (List.replicate d.2 (default : T)) := by
    rw [default_diagonal, diagonal_data]
    have hcongr : ∀ i ∈ List.range (min d.1 d.2),
        (List.replicate d.2 (default : T)).set i (default : T)
          = List.replicate d.2 (default : T) :=
      fun i _ => set_replicate_self d.2 (default : T) i
    rw [List.map_congr_left hcongr, List.map_const', List.length_range,
      ← List.replicate_add, Nat.add_sub_cancel' (Nat.min_le_left d.1 d.2)]
  show Matrix.mk d.1 d.2 d (default_diagonal d : Matrix T).data
      = Matrix.mk d.1 d.2 d (List.replicate d.1 (List.replicate d.2 (default : T)))
  rw [hdata]

lemma mkData_const (r c : Nat) (z : T) :
    mkData r c (fun _ _ => z) = List.replicate r (List.replicate c z) := by
  simp [mkData, List.map_const']

lemma from_data_nil : from_data ([] : List (List T)) = none := rfl

lemma from_data_eq (l : List (List T)) (row0 : List T) (h : l[0]? = some row0) :
    from_data l = some { rows := l.length, columns := row0.length,
                         dimension := (l.length, row0.length), data := l } := by
  simp [from_data, h]

lemma from_constant_WF (d : Nat × Nat) (v : T) : WF (from_constant d v) := by
  refine ⟨Prod.mk.eta.symm, by simp [from_constant, data_from_constant], ?_⟩
  show ∀ row ∈ (from_constant d v).data, row.length = d.2
  intro row hmem
  simp only [from_constant, data_from_constant] at hmem
  rw [List.eq_of_mem_replicate hmem]
  simp

lemma default_from_dimension_WF (d : Nat × Nat) :
    WF (default_from_dimension d : Matrix T) := by
  refine ⟨Prod.mk.eta.symm, by simp [default_from_dimension, data_from_zeroes], ?_⟩
  show ∀ row ∈ (default_from_dimension d : Matrix T).data, row.length = d.2
  intro row hmem
  simp only [default_from_dimension, data_from_zeroes] at hmem
  rw [List.eq_of_mem_replicate hmem]
  simp

lemma default_from_rows_and_columns_WF (r c : Nat) :
    WF (default_from_rows_and_columns r c : Matrix T) := by
  refine ⟨rfl, by simp [default_from_rows_and_columns, data_from_zeroes], ?_⟩
  show ∀ row ∈ (default_from_rows_and_columns r c : Matrix T).data, row.length = c
  intro row hmem
  simp only [default_from_rows_and_columns, data_from_zeroes] at hmem
  rw [List.eq_of_mem_replicate hmem]
  simp

lemma default_instance_WF : WF (default : Matrix T) := by
  show WF (Matrix.mk 3 3 (3, 3) (data_from_zeroes 3 3))
  refine ⟨rfl, by simp [data_from_zeroes], ?_⟩
  intro row hmem
  simp only [data_from_zeroes] at hmem
  rw [List.eq_of_mem_replicate hmem]
  simp

lemma cell_eq_cellD {m : Matrix T} (h : WF m) {i j : Nat}
    (hi : i < m.rows) (hj : j < m.columns) :
    cell m i j = some (cellD m i j) := by
  obtain ⟨-, hlen, hrows⟩ := h
  have hi' : i < m.data.length := by rw [hlen]; exact hi
  have hrow : m.data[i]? = some m.data[i] := List.getElem?_eq_getElem hi'
  have hj' : j < m.data[i].length := by
    rw [hrows _ (List.getElem_mem hi')]; exact hj
  simp [cell, cellD, hrow, List.getElem?_eq_getElem hj']

end Matrix
end MatrixImpl

/-! ## The claims -/

namespace MatrixImpl
namespace Matrix

variable {T : Type} [Add T] [Mul T] [Sub T] [Inhabited T]

lemma from_data_wf_of_rect {l : List (List T)} {m : Matrix T}
    (h : from_data l = some m) (hrect : ∀ row ∈ l, row.length = m.columns) :
    WF m := by
  unfold from_data at h
  cases h0 : l[0]? with
  | none => simp only [h0] at h; exact absurd h (by simp)
  | some row0 =>
    simp only [h0, Option.some.injEq] at h
    subst h
    exact ⟨rfl, rfl, hrect⟩

/-- C1: with `lhs.columns = rhs.rows`, `lhs * rhs` is an
`lhs.rows × rhs.columns` matrix whose cell `(i, j)` is the left fold of
`s + lhs(i,k) * rhs(k,j)` over `k` in `0 .. lhs.columns` starting from
`T::default()` — the sum `Σ_k lhs(i,k) * rhs(k,j)` accumulated by repeated
addition into a default-prefilled matrix, in the fixed loop order (result
rows outermost, then result columns, then the shared dimension). -/
theorem claim_C1_mul_accumulated_sums (lhs rhs : Matrix T)
    (hl : WF lhs) (hr : WF rhs) (h : lhs.columns = rhs.rows) :
    ∃ P, mul lhs rhs = .ok P ∧ P.rows = lhs.rows ∧ P.columns = rhs.columns ∧
      P.dimension = (lhs.rows, rhs.columns) ∧ WF P ∧
      ∀ i, i < lhs.rows → ∀ j, j < rhs.columns →
        cell P i j = some ((List.range lhs.columns).foldl
          (fun s k => s + cellD lhs i k * cellD rhs k j) (default : T)) := by
  refine ⟨_, mul_wf_eq lhs rhs hl hr h, rfl, rfl, rfl, WF_mk_mkData _ _ _, ?_⟩
  intro i hi j hj
  exact cell_mk_mkData hi hj

/-- Witness for C1 on concrete 2×3 and 3×2 constant matrices. -/
theorem claim_C1_witness :
    WF (from_constant (2, 3) (2 : Int)) ∧ WF (from_constant (3, 2) (3 : Int)) ∧
    (from_constant (2, 3) (2 : Int)).columns = (from_constant (3, 2) (3 : Int)).rows ∧
    (∃ P, mul (from_constant (2, 3) (2 : Int)) (from_constant (3, 2) (3 : Int))
        = .ok P ∧
      P.rows = (from_constant (2, 3) (2 : Int)).rows ∧
      P.columns = (from_constant (3, 2) (3 : Int)).columns ∧
      P.dimension = ((from_constant (2, 3) (2 : Int)).rows,
        (from_constant (3, 2) (3 : Int)).columns) ∧
      WF P ∧
      ∀ i, i < (from_constant (2, 3) (2 : Int)).rows →
        ∀ j, j < (from_constant (3, 2) (3 : Int)).columns →
          cell P i j = some
            ((List.range (from_constant (2, 3) (2 : Int)).columns).foldl
              (fun s k => s + cellD (from_constant (2, 3) (2 : Int)) i k
                * cellD (from_constant (3, 2) (3 : Int)) k j) (default : Int))) :=
  ⟨by decide, by decide, by decide,
    claim_C1_mul_accumulated_sums _ _ (by decide) (by decide) (by decide)⟩

/-- C2: on equal-dimension matrices, `+` and `-` return a matrix of the
same dimension whose cell `(i, j)` is `lhs(i,j) + rhs(i,j)` (respectively
`lhs(i,j) - rhs(i,j)`) for all valid `i`, `j`. -/
theorem claim_C2_add_sub_entrywise (lhs rhs : Matrix T)
    (hl : WF lhs) (hr : WF rhs) (hd : lhs.dimension = rhs.dimension) :
    (∃ P, add lhs rhs = .ok P ∧ P.dimension = lhs.dimension ∧ WF P ∧
      ∀ i, i < lhs.rows → ∀ j, j < lhs.columns →
        cell P i j = some (cellD lhs i j + cellD rhs i j)) ∧
    (∃ Q, sub lhs rhs = .ok Q ∧ Q.dimension = lhs.dimension ∧ WF Q ∧
      ∀ i, i < lhs.rows → ∀ j, j < lhs.columns →
        cell Q i j = some (cellD lhs i j - cellD rhs i j)) := by
  constructor
  · refine ⟨_, add_wf_eq lhs rhs hl hr hd, hl.1.symm, WF_mk_mkData _ _ _, ?_⟩
    intro i hi j hj
    exact cell_mk_mkData hi hj
  · refine ⟨_, sub_wf_eq lhs rhs hl hr hd, hl.1.symm, WF_mk_mkData _ _ _, ?_⟩
    intro i hi j hj
    exact cell_mk_mkData hi hj

/-- Witness for C2 on concrete 2×2 constant matrices. -/
theorem claim_C2_witness :
    WF (from_constant (2, 2) (5 : Int)) ∧ WF (from_constant (2, 2) (3 : Int)) ∧
    (from_constant (2, 2) (5 : Int)).dimension
      = (from_constant (2, 2) (3 : Int)).dimension ∧
    ((∃ P, add (from_constant (2, 2) (5 : Int)) (from_constant (2, 2) (3 : Int))
        = .ok P ∧
      P.dimension = (from_constant (2, 2) (5 : Int)).dimension ∧ WF P ∧
      ∀ i, i < (from_constant (2, 2) (5 : Int)).rows →
        ∀ j, j < (from_constant (2, 2) (5 : Int)).columns →
          cell P i j = some (cellD (from_constant (2, 2) (5 : Int)) i j
            + cellD (from_constant (2, 2) (3 : Int)) i j)) ∧
    (∃ Q, sub (from_constant (2, 2) (5 : Int)) (from_constant (2, 2) (3 : Int))
        = .ok Q ∧
      Q.dimension = (from_constant (2, 2) (5 : Int)).dimension ∧ WF Q ∧
      ∀ i, i < (from_constant (2, 2) (5 : Int)).rows →
        ∀ j, j < (from_constant (2, 2) (5 : Int)).columns →
          cell Q i j = some (cellD (from_constant (2, 2) (5 : Int)) i j
            - cellD (from_constant (2, 2) (3 : Int)) i j))) :=
  ⟨by decide, by decide, by decide,
    claim_C2_add_sub_entrywise _ _ (by decide) (by decide) (by decide)⟩

/-- C3: a dimension mismatch on `+`/`-` (unequal dimensions) or on `*`
(`lhs.columns ≠ rhs.rows`) is fatal: the operation yields the panic with
its diagnostic message and never a result value. -/
theorem claim_C3_mismatch_is_fatal (lhs rhs : Matrix T) :
    (lhs.dimension ≠ rhs.dimension →
      add lhs rhs = .error (.dimensionMismatch
        "Matrices must have the same dimension to perform addition") ∧
      sub lhs rhs = .error (.dimensionMismatch
        "Matrices must have the same dimension to perform subtraction")) ∧
    (lhs.columns ≠ rhs.rows →
      mul lhs rhs = .error (.dimensionMismatch
        "Incompatible dimensions for matrix multiplication.")) := by
  constructor
  · intro hd
    constructor
    · unfold add; rw [if_pos hd]
    · unfold sub; rw [if_pos hd]
  · intro hm
    unfold mul; rw [if_pos hm]

/-- Witness for C3 on concrete mismatched matrices. -/
theorem claim_C3_witness :
    (from_constant (2, 2) (1 : Int)).dimension
      ≠ (from_constant (3, 3) (1 : Int)).dimension ∧
    (add (from_constant (2, 2) (1 : Int)) (from_constant (3, 3) 1)
        = .error (.dimensionMismatch
          "Matrices must have the same dimension to perform addition") ∧
      sub (from_constant (2, 2) (1 : Int)) (from_constant (3, 3) 1)
        = .error (.dimensionMismatch
          "Matrices must have the same dimension to perform subtraction")) ∧
    (from_constant (2, 3) (1 : Int)).columns
      ≠ (from_constant (2, 2) (1 : Int)).rows ∧
    mul (from_constant (2, 3) (1 : Int)) (from_constant (2, 2) 1)
      = .error (.dimensionMismatch
        "Incompatible dimensions for matrix multiplication.") :=
  ⟨by decide,
    (claim_C3_mismatch_is_fatal _ _).1 (by decide),
    by decide,
    (claim_C3_mismatch_is_fatal _ _).2 (by decide)⟩

/-- C4: transpose of a well-formed `rows × columns` matrix is a new
`columns × rows` matrix whose cell `(j, i)` equals the input's cell
`(i, j)` for all valid `i`, `j`; the embedding is pure, so the input value
is consumed and never mutated. -/
theorem claim_C4_transpose (m : Matrix T) (hm : WF m) :
    ∃ P, transpose m = .ok P ∧ P.rows = m.columns ∧ P.columns = m.rows ∧
      P.dimension = (m.columns, m.rows) ∧ WF P ∧
      ∀ i, i < m.rows → ∀ j, j < m.columns → cell P j i = cell m i j := by
  refine ⟨_, transpose_wf_eq m hm, rfl, rfl, rfl, WF_mk_mkData _ _ _, ?_⟩
  intro i hi j hj
  rw [cell_mk_mkData hj hi, cell_eq_cellD hm hi hj]

/-- Witness for C4 on a concrete 2×3 matrix. -/
theorem claim_C4_witness :
    WF (from_constant (2, 3) (7 : Int)) ∧
    (∃ P, transpose (from_constant (2, 3) (7 : Int)) = .ok P ∧
      P.rows = (from_constant (2, 3) (7 : Int)).columns ∧
      P.columns = (from_constant (2, 3) (7 : Int)).rows ∧
      P.dimension = ((from_constant (2, 3) (7 : Int)).columns,
        (from_constant (2, 3) (7 : Int)).rows) ∧
      WF P ∧
      ∀ i, i < (from_constant (2, 3) (7 : Int)).rows →
        ∀ j, j < (from_constant (2, 3) (7 : Int)).columns →
          cell P j i = cell (from_constant (2, 3) (7 : Int)) i j) :=
  ⟨by decide, claim_C4_transpose _ (by decide)⟩

end Matrix
end MatrixImpl

namespace MatrixImpl
namespace Matrix

variable {T : Type} [Add T] [Mul T] [Sub T] [Inhabited T]

/-- C5 counterexample: `from_data` on the ragged input `[[1,2],[3]]`
returns a matrix that claims 2 columns yet stores a 1-element second row,
violating the rectangularity part of the invariant the claim asserts for
every constructor. -/
theorem claim_C5_counterexample :
    from_data [[(1 : Int), 2], [3]]
      = some { rows := 2, columns := 2, dimension := (2, 2),
               data := [[1, 2], [3]] } ∧
    ¬ WF ({ rows := 2, columns := 2, dimension := (2, 2),
            data := [[1, 2], [3]] } : Matrix Int) :=
  ⟨rfl, by decide⟩

/-- C5 (amended): every matrix produced by `from_constant`,
`diagonal_from_constant`, `default_diagonal`, `default_from_dimension`,
`default_from_rows_and_columns`, the zero-argument default, or returned by
`add`, `sub`, `mul` or `transpose` satisfies the invariant
(`dimension = (rows, columns)`, `rows` rows, each of `columns` cells);
a matrix produced by `from_data` satisfies it provided every supplied row
has the inferred column count (ragged input violates it, see the
counterexample). -/
theorem claim_C5_amended_wf :
    (∀ d : Nat × Nat, ∀ v : T, WF (from_constant d v)) ∧
    (∀ d : Nat × Nat, ∀ v : T, WF (diagonal_from_constant d v)) ∧
    (∀ d : Nat × Nat, WF (default_diagonal d : Matrix T)) ∧
    (∀ d : Nat × Nat, WF (default_from_dimension d : Matrix T)) ∧
    (∀ r c : Nat, WF (default_from_rows_and_columns r c : Matrix T)) ∧
    WF (default : Matrix T) ∧
    (∀ (l : List (List T)) (m : Matrix T), from_data l = some m →
      (∀ row ∈ l, row.length = m.columns) → WF m) ∧
    (∀ lhs rhs m : Matrix T, add lhs rhs = .ok m → WF m) ∧
    (∀ lhs rhs m : Matrix T, sub lhs rhs = .ok m → WF m) ∧
    (∀ lhs rhs m : Matrix T, mul lhs rhs = .ok m → WF m) ∧
    (∀ x m : Matrix T, transpose x = .ok m → WF m) :=
  ⟨from_constant_WF, diagonal_WF, fun d => diagonal_WF d _,
    default_from_dimension_WF, default_from_rows_and_columns_WF,
    default_instance_WF,
    fun l m h hrect => from_data_wf_of_rect h hrect,
    fun lhs rhs m h => add_ok_wf h,
    fun lhs rhs m h => sub_ok_wf h,
    fun lhs rhs m h => mul_ok_wf h,
    fun x m h => transpose_ok_wf h⟩

/-- Witness for the amended C5, discharging the hypothesis-bearing
conjuncts at concrete inputs. -/
theorem claim_C5_amended_witness :
    WF (from_constant ((2 : Nat), (2 : Nat)) (5 : Int)) ∧
    WF (default : Matrix Int) ∧
    WF ({ rows := 1, columns := 2, dimension := (1, 2),
          data := [[7, 8]] } : Matrix Int) ∧
    WF ({ rows := 3, columns := 2, dimension := (3, 2),
          data := [[7, 7], [7, 7], [7, 7]] } : Matrix Int) :=
  ⟨(claim_C5_amended_wf).1 (2, 2) 5,
    (claim_C5_amended_wf (T := Int)).2.2.2.2.2.1,
    (claim_C5_amended_wf).2.2.2.2.2.2.1 [[(7 : Int), 8]] _ rfl (by decide),
    (claim_C5_amended_wf).2.2.2.2.2.2.2.2.2.2 (from_constant (2, 3) (7 : Int)) _ rfl⟩

/-- C6: `default_diagonal d` is definitionally
`diagonal_from_constant d T::default()`, which equals the all-default
(zero) matrix `default_from_dimension d`; over `Int` it differs from the
matrix with ones on the diagonal, so despite its name it is not a
multiplicative identity. -/
theorem claim_C6_default_diagonal_is_zero (d : Nat × Nat) :
    (default_diagonal d : Matrix T) = diagonal_from_constant d (default : T) ∧
    (default_diagonal d : Matrix T) = default_from_dimension d ∧
    default_diagonal ((2 : Nat), (2 : Nat))
      ≠ diagonal_from_constant ((2 : Nat), (2 : Nat)) (1 : Int) :=
  ⟨rfl, default_diagonal_eq_zero d, by decide⟩

/-- Witness for C6 at the concrete dimension (3, 3). -/
theorem claim_C6_witness :
    (default_diagonal ((3 : Nat), (3 : Nat)) : Matrix Int)
      = default_from_dimension (3, 3) :=
  (claim_C6_default_diagonal_is_zero (3, 3)).2.1

/-- C7: `from_data` fails fast (returns nothing, modelling the panic of
the unchecked first-row lookup) exactly on the empty sequence; on a
non-empty one it infers `rows` from the outer length and `columns` from
the first row, stores the rows unvalidated, and in particular silently
accepts the ragged input `[[1,2],[3]]` as-is. -/
theorem claim_C7_from_data_behavior (l : List (List T)) (row0 : List T)
    (h : l[0]? = some row0) :
    from_data ([] : List (List T)) = none ∧
    from_data l = some { rows := l.length, columns := row0.length,
                         dimension := (l.length, row0.length), data := l } ∧
    from_data [[(1 : Int), 2], [3]]
      = some { rows := 2, columns := 2, dimension := (2, 2),
               data := [[1, 2], [3]] } :=
  ⟨from_data_nil, from_data_eq l row0 h, rfl⟩

/-- Witness for C7 on a concrete ragged input. -/
theorem claim_C7_witness :
    ([[(5 : Int)], [6, 7]] : List (List Int))[0]? = some [5] ∧
    (from_data ([] : List (List Int)) = none ∧
      from_data [[(5 : Int)], [6, 7]]
        = some { rows := 2, columns := 1, dimension := (2, 1),
                 data := [[5], [6, 7]] } ∧
      from_data [[(1 : Int), 2], [3]]
        = some { rows := 2, columns := 2, dimension := (2, 2),
                 data := [[1, 2], [3]] }) :=
  ⟨rfl, claim_C7_from_data_behavior [[(5 : Int)], [6, 7]] [5] rfl⟩

/-- C8: `diagonal_from_constant (r, c) v` keeps dimension `(r, c)`, is
well-formed, puts `v` at `(i, i)` for every `i < min r c` (only the
principal diagonal up to the shorter side for non-square dimensions), and
the default value at every other valid cell. -/
theorem claim_C8_diagonal_from_constant (d : Nat × Nat) (v : T) :
    WF (diagonal_from_constant d v) ∧
    (diagonal_from_constant d v).dimension = d ∧
    (∀ i, i < min d.1 d.2 → cell (diagonal_from_constant d v) i i = some v) ∧
    (∀ i j, i < d.1 → j < d.2 → i ≠ j →
      cell (diagonal_from_constant d v) i j = some (default : T)) := by
  refine ⟨diagonal_WF d v, rfl, ?_, ?_⟩
  · intro i hi
    exact diagonal_cell_diag d v hi
  · intro i j hi hj hne
    exact diagonal_cell_off d v hi hj hne

/-- Witness for C8 on a concrete non-square dimension. -/
theorem claim_C8_witness :
    (1 : Nat) < min 2 3 ∧
    cell (diagonal_from_constant ((2 : Nat), (3 : Nat)) (5 : Int)) 1 1 = some 5 ∧
    cell (diagonal_from_constant ((2 : Nat), (3 : Nat)) (5 : Int)) 0 2 = some 0 :=
  ⟨by decide,
    (claim_C8_diagonal_from_constant ((2 : Nat), (3 : Nat)) (5 : Int)).2.2.1 1
      (by decide),
    (claim_C8_diagonal_from_constant ((2 : Nat), (3 : Nat)) (5 : Int)).2.2.2 0 2
      (by decide) (by decide) (by decide)⟩

/-- C9: when scalar subtraction satisfies `x - x = T::default()`, `M - M`
is exactly `default_from_dimension M.dimension`, the all-default matrix of
`M`'s dimension. -/
theorem claim_C9_sub_self (M : Matrix T) (hM : WF M)
    (hs : ∀ x : T, x - x = (default : T)) :
    sub M M = .ok (default_from_dimension M.dimension) := by
  rw [sub_wf_eq M M hM hM rfl]
  have hfun : (fun i j : Nat => cellD M i j - cellD M i j)
      = (fun _ _ : Nat => (default : T)) := by
    funext i j
    exact hs _
  have hdata : mkData M.rows M.columns (fun i j => cellD M i j - cellD M i j)
      = data_from_zeroes M.rows M.columns := by
    rw [hfun, mkData_const]
    rfl
  rw [hdata, hM.1]
  rfl

/-- Witness for C9 on a concrete constant matrix over `Int`. -/
theorem claim_C9_witness :
    sub (from_constant ((2 : Nat), (2 : Nat)) (7 : Int)) (from_constant (2, 2) 7)
      = .ok (default_from_dimension
          (from_constant ((2 : Nat), (2 : Nat)) (7 : Int)).dimension) :=
  claim_C9_sub_self (from_constant (2, 2) 7) (by decide) (fun x => sub_self x)

/-- C10: on well-formed operands that pass the dimension guard, every
element access inside `add`, `sub`, `mul` and `transpose` is in bounds:
each operation returns an `.ok` matrix, so the `outOfBounds` branch of the
fallible embedding is unreachable. -/
theorem claim_C10_no_out_of_bounds (lhs rhs x : Matrix T)
    (hl : WF lhs) (hr : WF rhs) (hx : WF x) :
    (lhs.dimension = rhs.dimension → ∃ P, add lhs rhs = .ok P) ∧
    (lhs.dimension = rhs.dimension → ∃ P, sub lhs rhs = .ok P) ∧
    (lhs.columns = rhs.rows → ∃ P, mul lhs rhs = .ok P) ∧
    (∃ P, transpose x = .ok P) :=
  ⟨fun hd => ⟨_, add_wf_eq lhs rhs hl hr hd⟩,
    fun hd => ⟨_, sub_wf_eq lhs rhs hl hr hd⟩,
    fun h => ⟨_, mul_wf_eq lhs rhs hl hr h⟩,
    ⟨_, transpose_wf_eq x hx⟩⟩

/-- Witness for C10 on concrete matrices. -/
theorem claim_C10_witness :
    (∃ P, add (from_constant ((2 : Nat), (2 : Nat)) (1 : Int))
      (from_constant (2, 2) 2) = .ok P) ∧
    (∃ P, sub (from_constant ((2 : Nat), (2 : Nat)) (1 : Int))
      (from_constant (2, 2) 2) = .ok P) ∧
    (∃ P, mul (from_constant ((2 : Nat), (2 : Nat)) (1 : Int))
      (from_constant (2, 2) 2) = .ok P) ∧
    (∃ P, transpose (from_constant ((2 : Nat), (3 : Nat)) (1 : Int)) = .ok P) :=
  ⟨(claim_C10_no_out_of_bounds (from_constant (2, 2) (1 : Int))
      (from_constant (2, 2) 2) (from_constant (2, 3) (1 : Int))
      (by decide) (by decide) (by decide)).1 (by decide),
    (claim_C10_no_out_of_bounds (from_constant (2, 2) (1 : Int))
      (from_constant (2, 2) 2) (from_constant (2, 3) (1 : Int))
      (by decide) (by decide) (by decide)).2.1 (by decide),
    (claim_C10_no_out_of_bounds (from_constant (2, 2) (1 : Int))
      (from_constant (2, 2) 2) (from_constant (2, 3) (1 : Int))
      (by decide) (by decide) (by decide)).2.2.1 (by decide),
    (claim_C10_no_out_of_bounds (from_constant (2, 2) (1 : Int))
      (from_constant (2, 2) 2) (from_constant (2, 3) (1 : Int))
      (by decide) (by decide) (by decide)).2.2.2⟩

end Matrix
end MatrixImpl
